import Mathlib

/-!
Shallow embedding of the rshole DWARF struct-layout extractor (src/lib.rs).

The DWARF debug information is modelled as a list of compilation units, each
holding its entries in depth-first traversal order (the only order the gimli
cursor exposes: `next_dfs` steps through this flat order and the code ignores
the depth deltas it reports).  Each entry carries a tag, its unit offset and
its attributes in storage order.  All functions below are direct translations
of the Rust functions of the same names.
-/

namespace Rshole

/-- Wrap-around arithmetic of the Rust `u64` counters. -/
def u64Mod (n : Nat) : Nat := n % 2 ^ 64

/-- The DWARF tags the code inspects.  `other n` stands for every further tag. -/
inductive DwTag where
  | structure_type
  | typedef
  | pointer_type
  | const_type
  | base_type
  | union_type
  | array_type
  | enumeration_type
  | subroutine_type
  | formal_parameter
  | member
  | subrange_type
  | other (n : Nat)
deriving DecidableEq

/-- The attribute names the code inspects.  `other n` stands for the rest. -/
inductive AttrName where
  | DW_AT_type
  | DW_AT_name
  | DW_AT_byte_size
  | DW_AT_upper_bound
  | DW_AT_declaration
  | other (n : Nat)
deriving DecidableEq

/-- Attribute values, restricted to the forms the code distinguishes:
`UnitRef` (a reference to another entry of the same unit), data forms
convertible by `udata_value`, inline strings, references into `.debug_str`,
and everything else. -/
inductive AttrValue where
  | unitRef (offset : Nat)
  | udata (v : Nat)
  | str (s : String)
  | debugStrRef (off : Nat)
  | otherVal
deriving DecidableEq

/-- `gimli::AttributeValue::udata_value`. -/
def AttrValue.udataValue : AttrValue → Option Nat
  | .udata v => some v
  | _ => none

structure Attr where
  name : AttrName
  value : AttrValue
deriving DecidableEq

/-- One debugging information entry: tag, unit offset, attributes in
storage order. -/
structure Entry where
  offset : Nat
  tag : DwTag
  attrs : List Attr
deriving DecidableEq

/-- One compilation unit: its entries in depth-first order. -/
structure CUnit where
  entries : List Entry
deriving DecidableEq

/-- The `.debug_str` section: offsets mapped to strings. -/
abbrev DebugStr := List (Nat × String)

/-- The loaded DWARF sections: the units and the `.debug_str` section. -/
structure Dwarf where
  units : List CUnit
  debug_str : DebugStr

/-- `DwTypeMeta` of the source: an entry address as (offset, header index). -/
structure DwTypeMeta where
  offset : Nat
  header_idx : Nat
deriving DecidableEq

/-- Registry entry (`Struct` in the source). -/
structure Struct where
  name : String
  size : Nat
  meta : DwTypeMeta
  refcnt : Nat
deriving DecidableEq

/-- The `Type` enum of the source (that name is a Lean sort, hence `Ty`).
The source wraps each variant's payload in a struct of the same name; the
fields are inlined here (`Struct` keeps its struct since the registry shares
it). -/
inductive Ty where
  | Struct (s : Struct)
  | Typedef (name : String) (size : Nat) (meta : DwTypeMeta)
  | Pointer (size : Nat) (meta : DwTypeMeta)
  | Subroutine (size : Nat) (meta : DwTypeMeta)
  | Array (size : Nat) (meta : DwTypeMeta)
  | Union (size : Nat) (meta : DwTypeMeta)
  | Const (size : Nat) (meta : DwTypeMeta)
  | Base (name : String) (size : Nat) (meta : DwTypeMeta)
  | Enum (name : Option String) (size : Nat) (meta : DwTypeMeta)
  | Unknown (meta : DwTypeMeta)
deriving DecidableEq

/-- `Type::get_meta`. -/
def Ty.get_meta : Ty → DwTypeMeta
  | .Struct s => s.meta
  | .Typedef _ _ m => m
  | .Pointer _ m => m
  | .Subroutine _ m => m
  | .Array _ m => m
  | .Union _ m => m
  | .Const _ m => m
  | .Base _ _ m => m
  | .Enum _ _ m => m
  | .Unknown m => m

def Ty.isUnknown : Ty → Bool
  | .Unknown _ => true
  | _ => false

/-- The `gimli::Error` values this code can produce: `TypeMismatch` is the
one it constructs itself; `OffsetOutOfBounds` models the reader errors that
`entries_at_offset` / `debug_str.get_str` raise on an invalid offset. -/
inductive GErr where
  | TypeMismatch
  | OffsetOutOfBounds
deriving DecidableEq

/-- `StructMember` of the source. -/
structure StructMember where
  name : Option String
  size : Nat
  mb_type : Option Ty
  meta : DwTypeMeta
deriving DecidableEq

/-- `StructMember::new`. -/
def StructMember.new : StructMember :=
  { name := none, size := 0, mb_type := none, meta := ⟨0, 0⟩ }

/-- The struct registry (`HashMap<String, Struct>`), as an association list
whose keys are kept unique by construction. -/
abbrev StructDict := List (String × Struct)

/-- `HashMap::get` on the registry. -/
def dictLookup : StructDict → String → Option Struct
  | [], _ => none
  | (k, s) :: rest, n => if k = n then some s else dictLookup rest n

/-- The `Occupied` arm of `load_struct`: `refcnt += 1` on the entry. -/
def bumpRefcnt : StructDict → String → StructDict
  | [], _ => []
  | (k, s) :: rest, n =>
      if k = n then (k, { s with refcnt := u64Mod (s.refcnt + 1) }) :: rest
      else (k, s) :: bumpRefcnt rest n

/-- The `entry(name)` match of `load_struct`: occupied entries get their
reference count bumped, vacant ones are inserted fresh with `refcnt = 0`. -/
def dictRegister (d : StructDict) (n : String) (sz : Nat) (m : DwTypeMeta) :
    StructDict :=
  match dictLookup d n with
  | some _ => bumpRefcnt d n
  | none => d ++ [(n, ⟨n, sz, m, 0⟩)]

/-- `Parser`: the loaded sections plus the struct registry. -/
structure Parser where
  sections : Dwarf
  struct_dict : StructDict

/-- `name_attr_to_string`: inline strings resolve directly, `.debug_str`
references resolve through the section (failing on an unknown offset), and
every other form yields `None`. -/
def name_attr_to_string (ds : DebugStr) (a : Attr) :
    Except GErr (Option String) :=
  match a.value with
  | .str s => .ok (some s)
  | .debugStrRef off =>
      match List.lookup off ds with
      | some s => .ok (some s)
      | none => .error .OffsetOutOfBounds
  | _ => .ok none

/-- `unit.entries_at_offset(off)`: position a fresh depth-first cursor on the
entry with that offset; the returned list is the remaining traversal.  An
offset naming no entry is a reader error. -/
def entriesAtOffset (u : CUnit) (off : Nat) : Except GErr (List Entry) :=
  match u.entries.dropWhile (fun e => e.offset ≠ off) with
  | [] => .error .OffsetOutOfBounds
  | l => .ok l

/-- The attribute scan of `load_struct`: walks the attributes in storage
order tracking the captured name and byte size, aborts on a declaration
flag, and stops as soon as both name and size are captured.  Returns the
registration this entry contributes (`none` when it is abandoned or
nameless). -/
def scanStructAttrs (ds : DebugStr) :
    List Attr → Option String → Option Nat →
    Except GErr (Option (String × Nat))
  | [], sname, ssize => .ok (sname.map fun n => (n, ssize.getD 0))
  | a :: rest, sname, ssize =>
    match a.name with
    | .DW_AT_name =>
        match name_attr_to_string ds a with
        | .error e => .error e
        | .ok n =>
            if n.isSome ∧ ssize.isSome then
              .ok (n.map fun nm => (nm, ssize.getD 0))
            else scanStructAttrs ds rest n ssize
    | .DW_AT_byte_size =>
        let sz := a.value.udataValue
        if sname.isSome ∧ sz.isSome then
          .ok (sname.map fun nm => (nm, sz.getD 0))
        else scanStructAttrs ds rest sname sz
    | .DW_AT_declaration => .ok none
    | _ =>
        if sname.isSome ∧ ssize.isSome then
          .ok (sname.map fun nm => (nm, ssize.getD 0))
        else scanStructAttrs ds rest sname ssize

/-- `Parser::load_struct` at the registry level: scan the entry's attributes
and insert-or-increment when a registration comes out of the scan. -/
def load_struct (ds : DebugStr) (d : StructDict) (header_idx : Nat)
    (entry : Entry) : Except GErr StructDict :=
  match scanStructAttrs ds entry.attrs none none with
  | .error e => .error e
  | .ok none => .ok d
  | .ok (some (n, sz)) => .ok (dictRegister d n sz ⟨entry.offset, header_idx⟩)

/-- The inner entry loop of `load_structs` over one unit: every entry tagged
as a structure type goes through `load_struct`. -/
def loadStructEntries (ds : DebugStr) (header_idx : Nat) :
    StructDict → List Entry → Except GErr StructDict
  | d, [] => .ok d
  | d, e :: rest =>
      if e.tag = .structure_type then
        match load_struct ds d header_idx e with
        | .error err => .error err
        | .ok d2 => loadStructEntries ds header_idx d2 rest
      else loadStructEntries ds header_idx d rest

/-- The unit loop of `load_structs`. -/
def loadStructsUnits (ds : DebugStr) :
    Nat → StructDict → List CUnit → Except GErr StructDict
  | _, d, [] => .ok d
  | hidx, d, u :: rest =>
      match loadStructEntries ds hidx d u.entries with
      | .error err => .error err
      | .ok d2 => loadStructsUnits ds (hidx + 1) d2 rest

/-- `Parser::load_structs`. -/
def load_structs (p : Parser) : Except GErr Parser :=
  match loadStructsUnits p.sections.debug_str 0 p.struct_dict
      p.sections.units with
  | .error e => .error e
  | .ok d => .ok { p with struct_dict := d }

/-- The attribute scan of the `DW_TAG_structure_type` arm of
`get_type_meta`: the running `size` tracks the last byte-size attribute
seen; the first name attribute that resolves and hits the registry returns
the registry entry's name with the running size and `refcnt = 0`; falling
off the end yields the anonymous struct (`"void"`, `refcnt = 1`). -/
def structScan (ds : DebugStr) (dict : StructDict) :
    List Attr → Nat → Except GErr (String × Nat × Nat)
  | [], size => .ok ("void", size, 1)
  | a :: rest, size =>
    match a.name with
    | .DW_AT_name =>
        match name_attr_to_string ds a with
        | .error e => .error e
        | .ok none => structScan ds dict rest size
        | .ok (some nm) =>
            match dictLookup dict nm with
            | some entry => .ok (entry.name, size, 0)
            | none => structScan ds dict rest size
    | .DW_AT_byte_size => structScan ds dict rest (a.value.udataValue.getD 0)
    | _ => structScan ds dict rest size

/-- The attribute scan of the `DW_TAG_typedef` arm of `get_type_meta`. -/
def typedefScan (ds : DebugStr) :
    List Attr → String → Nat → Except GErr (String × Nat)
  | [], name, size => .ok (name, size)
  | a :: rest, name, size =>
    match a.name with
    | .DW_AT_name =>
        match name_attr_to_string ds a with
        | .error e => .error e
        | .ok n => typedefScan ds rest (n.getD "wtf") size
    | .DW_AT_byte_size => typedefScan ds rest name (a.value.udataValue.getD 0)
    | _ => typedefScan ds rest name size

/-- The attribute scan of the `DW_TAG_base_type` arm of `get_type_meta`. -/
def baseScan (ds : DebugStr) : List Attr → String → Except GErr String
  | [], name => .ok name
  | a :: rest, name =>
    match a.name with
    | .DW_AT_name =>
        match name_attr_to_string ds a with
        | .error e => .error e
        | .ok n => baseScan ds rest (n.getD "void")
    | _ => baseScan ds rest name

/-- The attribute scan of the `DW_TAG_enumeration_type` arm of
`get_type_meta`. -/
def enumScan (ds : DebugStr) :
    List Attr → Option String → Except GErr (Option String)
  | [], name => .ok name
  | a :: rest, name =>
    match a.name with
    | .DW_AT_name =>
        match name_attr_to_string ds a with
        | .error e => .error e
        | .ok n => enumScan ds rest n
    | _ => enumScan ds rest name

/-- The first upper-bound attribute of a subrange entry, as
`udata_value().unwrap_or(0) + 1`; with no such attribute control falls out
of the loop and the caller returns 0. -/
def subrangeUpperBound : List Attr → Nat
  | [] => 0
  | a :: rest =>
      if a.name = .DW_AT_upper_bound then u64Mod (a.value.udataValue.getD 0 + 1)
      else subrangeUpperBound rest

/-- `Parser::get_array_bounds`: restart a cursor at the array entry, skip
one step, inspect the next entry: a subrange entry yields its first
upper bound + 1 (0 with no such attribute), no entry yields 0, any other
tag is a `TypeMismatch`; an exhausted unit iterator also yields 0. -/
def get_array_bounds (p : Parser) (header_idx : Nat) (arr_offset : Nat) :
    Except GErr Nat :=
  match p.sections.units.drop header_idx with
  | [] => .ok 0
  | u :: _ =>
    match entriesAtOffset u arr_offset with
    | .error e => .error e
    | .ok l =>
      match l.drop 1 with
      | [] => .ok 0
      | e :: _ =>
          if e.tag = .subrange_type then .ok (subrangeUpperBound e.attrs)
          else .error .TypeMismatch

/-- `Parser::get_type_meta`: restart a cursor at `(header_idx, offset)`,
read one entry, branch on its tag. -/
def get_type_meta (p : Parser) (header_idx : Nat) (offset : Nat) :
    Except GErr Ty :=
  match p.sections.units.drop header_idx with
  | [] => .error .TypeMismatch
  | u :: _ =>
    match entriesAtOffset u offset with
    | .error e => .error e
    | .ok [] => .error .TypeMismatch
    | .ok (e :: _) =>
      match e.tag with
      | .structure_type =>
          match structScan p.sections.debug_str p.struct_dict e.attrs 0 with
          | .error er => .error er
          | .ok (n, sz, rc) => .ok (.Struct ⟨n, sz, ⟨offset, header_idx⟩, rc⟩)
      | .typedef =>
          match typedefScan p.sections.debug_str e.attrs "" 0 with
          | .error er => .error er
          | .ok (n, sz) => .ok (.Typedef n sz ⟨offset, header_idx⟩)
      | .pointer_type => .ok (.Pointer 8 ⟨offset, header_idx⟩)
      | .const_type => .ok (.Const 8 ⟨offset, header_idx⟩)
      | .base_type =>
          match baseScan p.sections.debug_str e.attrs "" with
          | .error er => .error er
          | .ok n => .ok (.Base n 0 ⟨offset, header_idx⟩)
      | .union_type => .ok (.Union 0 ⟨offset, header_idx⟩)
      | .array_type =>
          match get_array_bounds p header_idx offset with
          | .error er => .error er
          | .ok bounds => .ok (.Array bounds ⟨offset, header_idx⟩)
      | .enumeration_type =>
          match enumScan p.sections.debug_str e.attrs none with
          | .error er => .error er
          | .ok n => .ok (.Enum n 0 ⟨offset, header_idx⟩)
      | .subroutine_type => .ok (.Subroutine 0 ⟨offset, header_idx⟩)
      | .formal_parameter => .ok (.Subroutine 0 ⟨offset, header_idx⟩)
      | _ => .error .TypeMismatch

/-- The tags `get_type_meta` handles with a `Type` constructor. -/
def handledTag : DwTag → Bool
  | .structure_type => true
  | .typedef => true
  | .pointer_type => true
  | .const_type => true
  | .base_type => true
  | .union_type => true
  | .array_type => true
  | .enumeration_type => true
  | .subroutine_type => true
  | .formal_parameter => true
  | _ => false

/-- The attribute loop of `get_type`: the first type attribute holding a
unit reference resolves one hop; non-reference type attributes are skipped;
exhaustion yields `Ok(None)`. -/
def getTypeAttrScan (p : Parser) (header_idx : Nat) :
    List Attr → Except GErr (Option Ty)
  | [] => .ok none
  | a :: rest =>
      if a.name = .DW_AT_type then
        match a.value with
        | .unitRef off =>
            match get_type_meta p header_idx off with
            | .error e => .error e
            | .ok t => .ok (some t)
        | _ => getTypeAttrScan p header_idx rest
      else getTypeAttrScan p header_idx rest

/-- The unit loop of `get_type`: a unit whose cursor yields no entry sends
the loop on to the next unit; exhaustion of all units is a
`TypeMismatch`. -/
def getTypeAux (p : Parser) (meta : DwTypeMeta) :
    List CUnit → Except GErr (Option Ty)
  | [] => .error .TypeMismatch
  | u :: rest =>
    match entriesAtOffset u meta.offset with
    | .error e => .error e
    | .ok [] => getTypeAux p meta rest
    | .ok (e :: _) => getTypeAttrScan p meta.header_idx e.attrs

/-- `Parser::get_type` (the spec's `peel`). -/
def get_type (p : Parser) (t : Ty) : Except GErr (Option Ty) :=
  getTypeAux p t.get_meta (p.sections.units.drop t.get_meta.header_idx)

/-- The attribute loop of `StructMemberIter::parse_member`, threading the
member under construction.  A type attribute holding a unit reference
resolves through `get_type_meta`, whose error propagates (the `?` in the
source). -/
def parse_member_attrs (p : Parser) (header_idx : Nat) :
    StructMember → List Attr → Except GErr StructMember
  | m, [] => .ok m
  | m, a :: rest =>
    match a.name with
    | .DW_AT_type =>
        match a.value with
        | .unitRef off =>
            match get_type_meta p header_idx off with
            | .error e => .error e
            | .ok t => parse_member_attrs p header_idx
                { m with mb_type := some t } rest
        | _ => parse_member_attrs p header_idx m rest
    | .DW_AT_name =>
        match name_attr_to_string p.sections.debug_str a with
        | .error e => .error e
        | .ok n => parse_member_attrs p header_idx { m with name := n } rest
    | .DW_AT_byte_size =>
        parse_member_attrs p header_idx
          { m with size := a.value.udataValue.getD 0 } rest
    | _ => parse_member_attrs p header_idx m rest

/-- `StructMemberIter::parse_member`. -/
def parse_member (p : Parser) (header_idx : Nat) (e : Entry) :
    Except GErr (Option StructMember) :=
  match parse_member_attrs p header_idx StructMember.new e.attrs with
  | .error er => .error er
  | .ok m => .ok (some m)

/-- The unit loop of `StructMemberIter::get_member`: restart a cursor at the
struct's offset, advance `member_idx + 1` depth-first steps, read one entry;
a non-member tag ends the walk with `Ok(None)`; a unit whose cursor runs out
sends the loop to the next unit. -/
def getMemberAux (p : Parser) (header_idx : Nat) (off : Nat)
    (member_idx : Nat) : List CUnit → Except GErr (Option StructMember)
  | [] => .ok none
  | u :: rest =>
    match entriesAtOffset u off with
    | .error e => .error e
    | .ok l =>
      match l.drop (member_idx + 1) with
      | [] => getMemberAux p header_idx off member_idx rest
      | e :: _ =>
          if e.tag = .member then parse_member p header_idx e
          else .ok none

/-- `StructMemberIter::get_member`. -/
def get_member (p : Parser) (s : Struct) (member_idx : Nat) :
    Except GErr (Option StructMember) :=
  getMemberAux p s.meta.header_idx s.meta.offset member_idx
    (p.sections.units.drop s.meta.header_idx)

/-- `<StructMemberIter as Iterator>::next`: an error from `get_member` is
converted into `None`, which ends the iteration. -/
def memberNext (p : Parser) (s : Struct) (member_idx : Nat) :
    Option StructMember :=
  match get_member p s member_idx with
  | .ok m => m
  | .error _ => none

/-- Exhausting the member iterator from index `idx`: collect the yielded
members until the first `None` (fuelled; the fuel used by
`enumerate_members` always suffices). -/
def memberSeq (p : Parser) (s : Struct) : Nat → Nat → List StructMember
  | 0, _ => []
  | fuel + 1, idx =>
    match memberNext p s idx with
    | none => []
    | some m => m :: memberSeq p s fuel (idx + 1)

/-- Total number of entries of the debug information. -/
def totalEntries (d : Dwarf) : Nat :=
  (d.units.map (fun u => u.entries.length)).sum

/-- The full member sequence a consumer obtains by driving
`StructMemberIter` to its first `None` (the spec's `enumerate_members`). -/
def enumerate_members (p : Parser) (s : Struct) : List StructMember :=
  memberSeq p s (totalEntries p.sections + 1) 0

/-- The registration a single entry contributes during `load_structs`
(ignoring scan errors; used to state the registry characterization, whose
hypotheses exclude the error case). -/
def entryRegistration (ds : DebugStr) (hidx : Nat) (e : Entry) :
    Option (String × Nat × DwTypeMeta) :=
  if e.tag = .structure_type then
    match scanStructAttrs ds e.attrs none none with
    | .ok (some (n, sz)) => some (n, sz, ⟨e.offset, hidx⟩)
    | _ => none
  else none

/-- All registrations contributed by a unit list, in scan order. -/
def structRegistrationsFrom (ds : DebugStr) : Nat → List CUnit →
    List (String × Nat × DwTypeMeta)
  | _, [] => []
  | hidx, u :: rest =>
      u.entries.filterMap (entryRegistration ds hidx) ++
        structRegistrationsFrom ds (hidx + 1) rest

/-- Folding a list of registrations into the registry. -/
def regFold (d : StructDict) (evs : List (String × Nat × DwTypeMeta)) :
    StructDict :=
  evs.foldl (fun d ev => dictRegister d ev.1 ev.2.1 ev.2.2) d

/-- The registrations carrying a given name: their sizes and locations in
scan order. -/
def filterName (evs : List (String × Nat × DwTypeMeta)) (n : String) :
    List (Nat × DwTypeMeta) :=
  (evs.filter (fun ev => ev.1 = n)).map (fun ev => ev.2)

/-- The keys of the registry. -/
def dictKeys (d : StructDict) : List String := d.map (fun kv => kv.1)

/-! ## Concrete fixtures (synthetic debug information used by witnesses and
counterexamples) -/

/-- Fixture unit: a struct at offset 0 with two member children (the first
referencing the base type at offset 3, the second carrying a malformed
type attribute), a base type, and an entry with an unhandled tag. -/
def U0 : CUnit := ⟨[
  ⟨0, .structure_type, [⟨.DW_AT_name, .str "s"⟩, ⟨.DW_AT_byte_size, .udata 8⟩]⟩,
  ⟨1, .member, [⟨.DW_AT_name, .str "a"⟩, ⟨.DW_AT_type, .unitRef 3⟩,
    ⟨.DW_AT_byte_size, .udata 4⟩]⟩,
  ⟨2, .member, [⟨.DW_AT_name, .str "b"⟩, ⟨.DW_AT_type, .udata 99⟩]⟩,
  ⟨3, .base_type, [⟨.DW_AT_name, .str "int"⟩]⟩,
  ⟨4, .other 7, []⟩]⟩

def P0 : Parser := ⟨⟨[U0], []⟩, []⟩

def S0 : Struct := ⟨"s", 8, ⟨0, 0⟩, 0⟩

/-- Fixture unit for array-bound resolution: an array with a bounded
subrange sibling, one with an attribute-less subrange sibling, one whose
following entry is not a subrange, and one with no following entry. -/
def U5 : CUnit := ⟨[
  ⟨0, .array_type, []⟩,
  ⟨1, .subrange_type, [⟨.DW_AT_upper_bound, .udata 7⟩]⟩,
  ⟨2, .array_type, []⟩,
  ⟨3, .subrange_type, []⟩,
  ⟨4, .array_type, []⟩,
  ⟨5, .base_type, []⟩,
  ⟨6, .array_type, []⟩]⟩

def P5 : Parser := ⟨⟨[U5], []⟩, []⟩

/-! ## Helper lemmas -/

theorem subrangeUpperBound_of_first (pre post : List Attr) (ub : Attr)
    (hpre : ∀ b ∈ pre, b.name ≠ .DW_AT_upper_bound)
    (hub : ub.name = .DW_AT_upper_bound) :
    subrangeUpperBound (pre ++ ub :: post) =
      u64Mod (ub.value.udataValue.getD 0 + 1) := by
  induction pre with
  | nil => simp [subrangeUpperBound, hub]
  | cons a rest ih =>
      have ha : a.name ≠ .DW_AT_upper_bound := hpre a (by simp)
      simp only [List.cons_append, subrangeUpperBound, if_neg ha]
      exact ih (fun b hb => hpre b (by simp [hb]))

theorem subrangeUpperBound_of_none (l : List Attr)
    (h : ∀ b ∈ l, b.name ≠ .DW_AT_upper_bound) :
    subrangeUpperBound l = 0 := by
  induction l with
  | nil => rfl
  | cons a rest ih =>
      simp only [subrangeUpperBound, if_neg (h a (by simp))]
      exact ih (fun b hb => h b (by simp [hb]))

/-- Every success of `get_type_meta p h o` carries `⟨o, h⟩` as its
location. -/
theorem get_type_meta_get_meta (p : Parser) (hd off : Nat) (t : Ty)
    (ht : get_type_meta p hd off = .ok t) : t.get_meta = ⟨off, hd⟩ := by
  unfold get_type_meta at ht
  repeat' split at ht
  all_goals first
    | exact Except.noConfusion ht
    | (injection ht with ht2; subst ht2; rfl)

/-- `get_type_meta` never succeeds with the `Unknown` variant. -/
theorem get_type_meta_no_unknown (p : Parser) (hd off : Nat) (t : Ty)
    (ht : get_type_meta p hd off = .ok t) : t.isUnknown = false := by
  unfold get_type_meta at ht
  repeat' split at ht
  all_goals first
    | exact Except.noConfusion ht
    | (injection ht with ht2; subst ht2; rfl)

/-- A successful one-hop peel through the attribute loop of `get_type`
always comes from a `get_type_meta` call. -/
theorem getTypeAttrScan_ok_some (p : Parser) (hidx : Nat)
    (attrs : List Attr) (t : Ty)
    (h : getTypeAttrScan p hidx attrs = .ok (some t)) :
    ∃ off, get_type_meta p hidx off = .ok t := by
  induction attrs with
  | nil => simp [getTypeAttrScan] at h
  | cons a rest ih =>
      by_cases hn : a.name = .DW_AT_type
      · rw [getTypeAttrScan, if_pos hn] at h
        split at h
        · split at h
          · exact Except.noConfusion h
          · simp only [Except.ok.injEq, Option.some.injEq] at h
            subst h
            exact ⟨_, by assumption⟩
        · exact ih h
      · rw [getTypeAttrScan, if_neg hn] at h
        exact ih h

/-- A successful one-hop peel through the unit loop of `get_type` always
comes from a `get_type_meta` call. -/
theorem getTypeAux_ok_some (p : Parser) (m : DwTypeMeta) (l : List CUnit)
    (t : Ty) (h : getTypeAux p m l = .ok (some t)) :
    ∃ off, get_type_meta p m.header_idx off = .ok t := by
  induction l with
  | nil => simp [getTypeAux] at h
  | cons u rest ih =>
      unfold getTypeAux at h
      cases he : entriesAtOffset u m.offset <;> rw [he] at h
      · exact absurd h (by simp)
      · rename_i l2
        cases l2 with
        | nil => exact ih h
        | cons e es => exact getTypeAttrScan_ok_some p m.header_idx e.attrs t h

/-! ## Claims -/

/-- **C4** (amended).  For every entry whose tag is outside the resolver's
handled set, `get_type_meta` returns an error — the `TypeMismatch` error,
the very same `gimli::Error` value the resolver uses for the array-sibling
hard error, not a distinct `UnrecognizedTag` kind — and never returns a
`Type` value. -/
theorem c4_unrecognized_tag_is_error (p : Parser) (hidx off : Nat)
    (u : CUnit) (tl : List CUnit) (e : Entry) (es : List Entry)
    (hu : p.sections.units.drop hidx = u :: tl)
    (he : entriesAtOffset u off = .ok (e :: es))
    (htag : handledTag e.tag = false) :
    get_type_meta p hidx off = .error .TypeMismatch := by
  unfold get_type_meta
  simp only [hu, he]
  obtain ⟨eo, etag, eattrs⟩ := e
  cases etag <;> first | rfl | (simp [handledTag] at htag)

/-- **C4** counterexample to the claim as stated: resolving the
unhandled-tag entry at offset 4 of the fixture yields exactly the same
error value (`TypeMismatch`) that the array-bound resolver raises for a
non-subrange sibling (the error the spec itself calls `TypeMismatch` in
§4.4) — so the error returned for an unrecognized tag is not a distinct
`UnrecognizedTag` kind. -/
theorem c4_counterexample :
    get_type_meta P0 0 4 = .error .TypeMismatch ∧
    get_array_bounds P5 0 4 = .error .TypeMismatch ∧
    (U0.entries.map Entry.tag).getLast? = some (.other 7) := by
  refine ⟨rfl, rfl, rfl⟩

/-- **C4** witness: the amended theorem applied to the fixture entry with
the unhandled tag `other 7` at offset 4. -/
theorem c4_witness : get_type_meta P0 0 4 = .error .TypeMismatch :=
  c4_unrecognized_tag_is_error P0 0 4 U0 [] ⟨4, .other 7, []⟩ [] rfl rfl rfl

/-- **C5**.  For every array-type entry, the array-bound resolver returns
`upper_bound + 1` when the entry immediately following it in traversal
order is a subrange entry whose first upper-bound attribute carries the
value `bnd` (so upper-bound 7 yields 8); returns 0 when the subrange
carries no upper-bound attribute, and also when no entry follows at all;
and returns the `TypeMismatch` error when the following entry is not a
subrange entry. -/
theorem c5_array_bounds :
    (∀ (p : Parser) (hidx off : Nat) (u : CUnit) (tl : List CUnit)
        (arrE sib : Entry) (es : List Entry) (pre post : List Attr)
        (ub : Attr) (bnd : Nat),
      p.sections.units.drop hidx = u :: tl →
      entriesAtOffset u off = .ok (arrE :: sib :: es) →
      arrE.tag = .array_type →
      sib.tag = .subrange_type →
      sib.attrs = pre ++ ub :: post →
      (∀ b ∈ pre, b.name ≠ .DW_AT_upper_bound) →
      ub.name = .DW_AT_upper_bound →
      ub.value = .udata bnd →
      bnd + 1 < 2 ^ 64 →
      get_array_bounds p hidx off = .ok (bnd + 1)) ∧
    (∀ (p : Parser) (hidx off : Nat) (u : CUnit) (tl : List CUnit)
        (arrE sib : Entry) (es : List Entry),
      p.sections.units.drop hidx = u :: tl →
      entriesAtOffset u off = .ok (arrE :: sib :: es) →
      arrE.tag = .array_type →
      sib.tag = .subrange_type →
      (∀ b ∈ sib.attrs, b.name ≠ .DW_AT_upper_bound) →
      get_array_bounds p hidx off = .ok 0) ∧
    (∀ (p : Parser) (hidx off : Nat) (u : CUnit) (tl : List CUnit)
        (arrE : Entry),
      p.sections.units.drop hidx = u :: tl →
      entriesAtOffset u off = .ok [arrE] →
      arrE.tag = .array_type →
      get_array_bounds p hidx off = .ok 0) ∧
    (∀ (p : Parser) (hidx off : Nat) (u : CUnit) (tl : List CUnit)
        (arrE sib : Entry) (es : List Entry),
      p.sections.units.drop hidx = u :: tl →
      entriesAtOffset u off = .ok (arrE :: sib :: es) →
      arrE.tag = .array_type →
      sib.tag ≠ .subrange_type →
      get_array_bounds p hidx off = .error .TypeMismatch) := by
  refine ⟨?_, ?_, ?_, ?_⟩
  · intro p hidx off u tl arrE sib es pre post ub bnd hu he _ hsib hattrs
      hpre hub hval hlt
    unfold get_array_bounds
    simp only [hu, he, List.drop_succ_cons, List.drop_zero, hsib, if_pos]
    rw [hattrs, subrangeUpperBound_of_first pre post ub hpre hub, hval]
    simp only [AttrValue.udataValue, Option.getD_some, u64Mod]
    rw [Nat.mod_eq_of_lt (by omega)]
  · intro p hidx off u tl arrE sib es hu he _ hsib hattrs
    unfold get_array_bounds
    simp only [hu, he, List.drop_succ_cons, List.drop_zero, hsib, if_pos]
    rw [subrangeUpperBound_of_none sib.attrs hattrs]
  · intro p hidx off u tl arrE hu he _
    unfold get_array_bounds
    simp only [hu, he, List.drop_succ_cons, List.drop_zero, List.drop_nil]
  · intro p hidx off u tl arrE sib es hu he _ hsib
    unfold get_array_bounds
    simp only [hu, he, List.drop_succ_cons, List.drop_zero, if_neg hsib]

/-- **C5** witness: all four conjuncts applied to the array fixture: the
array at offset 0 (subrange sibling with upper-bound 7) yields 8, the one
at offset 2 (subrange sibling without the attribute) yields 0, the one at
offset 6 (no following entry) yields 0, and the one at offset 4
(non-subrange sibling) is a `TypeMismatch` error. -/
theorem c5_witness :
    get_array_bounds P5 0 0 = .ok 8 ∧
    get_array_bounds P5 0 2 = .ok 0 ∧
    get_array_bounds P5 0 6 = .ok 0 ∧
    get_array_bounds P5 0 4 = .error .TypeMismatch := by
  refine ⟨?_, ?_, ?_, ?_⟩
  · exact c5_array_bounds.1 P5 0 0 U5 [] ⟨0, .array_type, []⟩
      ⟨1, .subrange_type, [⟨.DW_AT_upper_bound, .udata 7⟩]⟩
      [⟨2, .array_type, []⟩, ⟨3, .subrange_type, []⟩, ⟨4, .array_type, []⟩,
        ⟨5, .base_type, []⟩, ⟨6, .array_type, []⟩]
      [] [] ⟨.DW_AT_upper_bound, .udata 7⟩ 7 rfl rfl rfl rfl rfl
      (by intro b hb; cases hb) rfl rfl (by decide)
  · exact c5_array_bounds.2.1 P5 0 2 U5 [] ⟨2, .array_type, []⟩
      ⟨3, .subrange_type, []⟩
      [⟨4, .array_type, []⟩, ⟨5, .base_type, []⟩, ⟨6, .array_type, []⟩]
      rfl rfl rfl rfl (by intro b hb; cases hb)
  · exact c5_array_bounds.2.2.1 P5 0 6 U5 [] ⟨6, .array_type, []⟩
      rfl rfl rfl
  · exact c5_array_bounds.2.2.2 P5 0 4 U5 [] ⟨4, .array_type, []⟩
      ⟨5, .base_type, []⟩ [⟨6, .array_type, []⟩] rfl rfl rfl (by decide)

/-- **C9**.  Resolution is deterministic: `get_type_meta` is a pure
function of the populated parser (its sections and its registry) and the
location, so resolving the same location twice against the same parser —
each call opening a fresh cursor, as the definition does — yields
structurally equal `Type` values. -/
theorem c9_deterministic (p q : Parser) (hs : p.sections = q.sections)
    (hd : p.struct_dict = q.struct_dict) (hidx off : Nat) :
    get_type_meta p hidx off = get_type_meta q hidx off := by
  cases p
  cases q
  cases hs
  cases hd
  rfl

/-- **C9** witness: two resolutions of offset 3 of the fixture against the
same parser agree. -/
theorem c9_witness :
    get_type_meta P0 0 3 = get_type_meta P0 0 3 ∧
    get_type_meta P0 0 3 = .ok (.Base "int" 0 ⟨3, 0⟩) :=
  ⟨c9_deterministic P0 P0 rfl rfl 0 3, rfl⟩

/-- **C10**.  The resolver never returns the `Unknown` variant: every
success of `get_type_meta` is one of the other nine variants, and hence so
is every type produced by a successful `get_type` peel. -/
theorem c10_never_unknown :
    (∀ (p : Parser) (hidx off : Nat) (t : Ty),
      get_type_meta p hidx off = .ok t → t.isUnknown = false) ∧
    (∀ (p : Parser) (t0 t : Ty),
      get_type p t0 = .ok (some t) → t.isUnknown = false) := by
  refine ⟨get_type_meta_no_unknown, ?_⟩
  intro p t0 t h
  obtain ⟨off, hoff⟩ := getTypeAux_ok_some p t0.get_meta _ t h
  exact get_type_meta_no_unknown p t0.get_meta.header_idx off t hoff

/-- **C10** witness: the resolution of offset 3 of the fixture succeeds
and its result is not `Unknown`. -/
theorem c10_witness :
    get_type_meta P0 0 3 = .ok (.Base "int" 0 ⟨3, 0⟩) ∧
    (Ty.Base "int" 0 ⟨3, 0⟩).isUnknown = false :=
  ⟨rfl, c10_never_unknown.1 P0 0 3 (.Base "int" 0 ⟨3, 0⟩) rfl⟩

/-- Fixture: a pointer entry with a name attribute but no type-reference
attribute. -/
def U8 : CUnit := ⟨[⟨0, .pointer_type, [⟨.DW_AT_name, .str "p"⟩]⟩]⟩

def P8 : Parser := ⟨⟨[U8], []⟩, []⟩

/-- The attribute loop of `get_type` on an entry without any type
attribute falls through to `Ok(None)`. -/
theorem getTypeAttrScan_no_type (p : Parser) (hidx : Nat)
    (attrs : List Attr) (h : ∀ a ∈ attrs, a.name ≠ .DW_AT_type) :
    getTypeAttrScan p hidx attrs = .ok none := by
  induction attrs with
  | nil => rfl
  | cons a rest ih =>
      rw [getTypeAttrScan, if_neg (h a (by simp))]
      exact ih (fun b hb => h b (by simp [hb]))

/-- **C8**.  For every successfully resolved `Type` whose underlying entry
carries no type-reference attribute (for example a pointer with no
referenced type), `get_type` (the spec's `peel`) returns `Ok(None)` — a
successful empty result — not an error. -/
theorem c8_peel_no_inner (p : Parser) (hidx off : Nat) (t : Ty)
    (u : CUnit) (tl : List CUnit) (e : Entry) (es : List Entry)
    (ht : get_type_meta p hidx off = .ok t)
    (hu : p.sections.units.drop hidx = u :: tl)
    (he : entriesAtOffset u off = .ok (e :: es))
    (hattrs : ∀ a ∈ e.attrs, a.name ≠ .DW_AT_type) :
    get_type p t = .ok none := by
  have hm := get_type_meta_get_meta p hidx off t ht
  unfold get_type
  rw [hm]
  show getTypeAux p ⟨off, hidx⟩ (p.sections.units.drop hidx) = .ok none
  rw [hu]
  simp only [getTypeAux, he]
  exact getTypeAttrScan_no_type p hidx e.attrs hattrs

/-- **C8** witness: the pointer fixture resolves, and peeling it yields
"no inner type", not an error. -/
theorem c8_witness :
    get_type_meta P8 0 0 = .ok (.Pointer 8 ⟨0, 0⟩) ∧
    get_type P8 (.Pointer 8 ⟨0, 0⟩) = .ok none :=
  ⟨rfl, c8_peel_no_inner P8 0 0 (.Pointer 8 ⟨0, 0⟩) U8 []
    ⟨0, .pointer_type, [⟨.DW_AT_name, .str "p"⟩]⟩ [] rfl rfl rfl
    (by decide)⟩

/-- Fixture entries probing both declaration-flag orderings. -/
def eDecl1 : Entry := ⟨0, .structure_type,
  [⟨.DW_AT_name, .str "a"⟩, ⟨.DW_AT_declaration, .udata 1⟩,
   ⟨.DW_AT_byte_size, .udata 4⟩]⟩

def eDecl2 : Entry := ⟨0, .structure_type,
  [⟨.DW_AT_name, .str "a"⟩, ⟨.DW_AT_byte_size, .udata 4⟩,
   ⟨.DW_AT_declaration, .udata 1⟩]⟩

/-- The attribute scan of `load_struct` on an attribute list containing a
declaration flag registers the entry exactly when a (well-formed) name
attribute and byte-size attribute both occur strictly before the first
declaration flag. -/
theorem scanStructAttrs_decl_iff (ds : DebugStr) (post : List Attr)
    (dA : Attr) (hdA : dA.name = .DW_AT_declaration) :
    ∀ (pre : List Attr) (sname : Option String) (ssize : Option Nat),
    (∀ a ∈ pre, a.name = .DW_AT_name → ∃ s, a.value = .str s) →
    (∀ a ∈ pre, a.name = .DW_AT_byte_size → ∃ v, a.value = .udata v) →
    (∀ a ∈ pre, a.name ≠ .DW_AT_declaration) →
    ¬(sname.isSome = true ∧ ssize.isSome = true) →
    ((∃ r, scanStructAttrs ds (pre ++ dA :: post) sname ssize =
        .ok (some r)) ↔
      ((sname.isSome = true ∨ ∃ a ∈ pre, a.name = .DW_AT_name) ∧
       (ssize.isSome = true ∨ ∃ a ∈ pre, a.name = .DW_AT_byte_size))) := by
  intro pre
  induction pre with
  | nil =>
      intro sname ssize _ _ _ hinv
      simp only [List.nil_append, scanStructAttrs, hdA]
      constructor
      · rintro ⟨r, hr⟩
        exact absurd hr (by simp)
      · rintro ⟨h1, h2⟩
        simp at h1 h2
        exact absurd ⟨h1, h2⟩ hinv
  | cons b pre2 ih =>
      intro sname ssize hwfn hwfs hnd hinv
      have hbn : b.name ≠ .DW_AT_declaration := hnd b (by simp)
      have hwfn2 : ∀ a ∈ pre2, a.name = .DW_AT_name → ∃ s, a.value = .str s :=
        fun a ha => hwfn a (by simp [ha])
      have hwfs2 : ∀ a ∈ pre2, a.name = .DW_AT_byte_size →
          ∃ v, a.value = .udata v := fun a ha => hwfs a (by simp [ha])
      have hnd2 : ∀ a ∈ pre2, a.name ≠ .DW_AT_declaration :=
        fun a ha => hnd a (by simp [ha])
      rcases hb : b.name with _ | _ | _ | _ | _ | n
      · -- DW_AT_type: default arm
        simp only [List.cons_append, scanStructAttrs, hb, List.append_eq]
        rw [if_neg hinv, ih sname ssize hwfn2 hwfs2 hnd2 hinv]
        simp [hb]
      · -- DW_AT_name
        obtain ⟨srep, hsrep⟩ := hwfn b (by simp) hb
        have hna : name_attr_to_string ds b = .ok (some srep) := by
          simp [name_attr_to_string, hsrep]
        simp only [List.cons_append, scanStructAttrs, hb, hna, List.append_eq]
        cases hss : ssize with
        | some v =>
            rw [if_pos (by simp)]
            constructor
            · intro _
              exact ⟨Or.inr ⟨b, by simp, hb⟩, Or.inl rfl⟩
            · intro _
              exact ⟨(srep, v), by simp⟩
        | none =>
            rw [if_neg (by simp)]
            rw [ih (some srep) none hwfn2 hwfs2 hnd2 (by simp)]
            simp [hb]
      · -- DW_AT_byte_size
        obtain ⟨v, hv⟩ := hwfs b (by simp) hb
        simp only [List.cons_append, scanStructAttrs, hb, hv,
          AttrValue.udataValue, List.append_eq]
        cases hsn : sname with
        | some nm =>
            rw [if_pos (by simp)]
            constructor
            · intro _
              exact ⟨Or.inl rfl, Or.inr ⟨b, by simp, hb⟩⟩
            · intro _
              exact ⟨(nm, v), by simp⟩
        | none =>
            rw [if_neg (by simp)]
            rw [ih none (some v) hwfn2 hwfs2 hnd2 (by simp)]
            simp [hb]
      · -- DW_AT_upper_bound: default arm
        simp only [List.cons_append, scanStructAttrs, hb, List.append_eq]
        rw [if_neg hinv, ih sname ssize hwfn2 hwfs2 hnd2 hinv]
        simp [hb]
      · exact absurd hb hbn
      · -- other n: default arm
        simp only [List.cons_append, scanStructAttrs, hb, List.append_eq]
        rw [if_neg hinv, ih sname ssize hwfn2 hwfs2 hnd2 hinv]
        simp [hb]

/-- **C3**.  During registry population, a struct entry carrying a
declaration-flag attribute is registered (inserted into an empty registry)
if and only if the declaration flag is stored after both the (well-formed)
name and byte-size attributes: a flag reached before both are captured
abandons the entry; if both were already captured the scan has stopped
early and the entry is registered as a full definition despite the later
flag. -/
theorem c3_declaration_ordering (ds : DebugStr) (hidx : Nat) (e : Entry)
    (pre post : List Attr) (dA : Attr)
    (hsplit : e.attrs = pre ++ dA :: post)
    (hdA : dA.name = .DW_AT_declaration)
    (hpre : ∀ a ∈ pre, a.name ≠ .DW_AT_declaration)
    (hwfn : ∀ a ∈ pre, a.name = .DW_AT_name → ∃ s, a.value = .str s)
    (hwfs : ∀ a ∈ pre, a.name = .DW_AT_byte_size → ∃ v, a.value = .udata v) :
    (∃ nm st, load_struct ds [] hidx e = .ok [(nm, st)]) ↔
      ((∃ a ∈ pre, a.name = .DW_AT_name) ∧
       (∃ a ∈ pre, a.name = .DW_AT_byte_size)) := by
  have hiff := scanStructAttrs_decl_iff ds post dA hdA pre none none
    hwfn hwfs hpre (by simp)
  simp only [Option.isSome_none, Bool.false_eq_true, false_or] at hiff
  unfold load_struct
  rw [hsplit]
  constructor
  · rintro ⟨nm, st, hr⟩
    cases hscan : scanStructAttrs ds (pre ++ dA :: post) none none with
    | error er => rw [hscan] at hr; exact Except.noConfusion hr
    | ok o =>
        cases o with
        | none =>
            rw [hscan] at hr
            simp at hr
        | some r =>
            exact hiff.mp ⟨r, hscan⟩
  · intro hcond
    obtain ⟨⟨nm, sz⟩, hscan⟩ := hiff.mpr hcond
    rw [hscan]
    exact ⟨nm, ⟨nm, sz, ⟨e.offset, hidx⟩, 0⟩, rfl⟩

/-- **C3** witness: both orderings probed.  With the declaration flag
between name and byte-size the entry is abandoned; with the flag after
both, the scan has already stopped and the entry is registered as a full
definition. -/
theorem c3_witness :
    (∃ nm st, load_struct [] [] 0 eDecl2 = .ok [(nm, st)]) ∧
    load_struct [] [] 0 eDecl1 = .ok [] := by
  constructor
  · exact (c3_declaration_ordering [] 0 eDecl2
      [⟨.DW_AT_name, .str "a"⟩, ⟨.DW_AT_byte_size, .udata 4⟩] []
      ⟨.DW_AT_declaration, .udata 1⟩ rfl rfl (by decide)
      (by intro a ha hn
          simp only [List.mem_cons] at ha
          rcases ha with h | h | h
          · subst h; exact ⟨"a", rfl⟩
          · subst h; simp at hn
          · cases h)
      (by intro a ha hn
          simp only [List.mem_cons] at ha
          rcases ha with h | h | h
          · subst h; simp at hn
          · subst h; exact ⟨4, rfl⟩
          · cases h)).mpr
      ⟨⟨⟨.DW_AT_name, .str "a"⟩, by simp, rfl⟩,
       ⟨⟨.DW_AT_byte_size, .udata 4⟩, by simp, rfl⟩⟩
  · rfl

/-- Whether an attribute value is a unit reference. -/
def AttrValue.isUnitRef : AttrValue → Bool
  | .unitRef _ => true
  | _ => false

/-- Whether an attribute value is a `.debug_str` reference. -/
def AttrValue.isDebugStrRef : AttrValue → Bool
  | .debugStrRef _ => true
  | _ => false

/-- Reading position `pre.length` of the member walk: `get_member` reads
the entry `pre.length + 1` depth-first steps past the struct entry. -/
theorem get_member_split (p : Parser) (s : Struct) (u : CUnit)
    (tl : List CUnit) (e0 : Entry) (pre rest : List Entry) (e : Entry)
    (hu : p.sections.units.drop s.meta.header_idx = u :: tl)
    (he : entriesAtOffset u s.meta.offset = .ok (e0 :: (pre ++ e :: rest))) :
    get_member p s pre.length =
      if e.tag = .member then parse_member p s.meta.header_idx e
      else .ok none := by
  unfold get_member
  rw [hu]
  simp only [getMemberAux, he, List.drop_succ_cons, List.drop_left]

/-- `parse_member` on an entry none of whose type attributes is a unit
reference (and none of whose name attributes goes through `.debug_str`)
succeeds and leaves the member's type reference `None`. -/
theorem parse_member_attrs_no_ref (p : Parser) (hidx : Nat) :
    ∀ (attrs : List Attr) (m : StructMember),
    (∀ a ∈ attrs, a.name = .DW_AT_type → a.value.isUnitRef = false) →
    (∀ a ∈ attrs, a.name = .DW_AT_name → a.value.isDebugStrRef = false) →
    ∃ m2, parse_member_attrs p hidx m attrs = .ok m2 ∧
      m2.mb_type = m.mb_type := by
  intro attrs
  induction attrs with
  | nil => intro m _ _; exact ⟨m, rfl, rfl⟩
  | cons a rest ih =>
      intro m htype hname
      have htype2 : ∀ b ∈ rest, b.name = .DW_AT_type →
          b.value.isUnitRef = false := fun b hb => htype b (by simp [hb])
      have hname2 : ∀ b ∈ rest, b.name = .DW_AT_name →
          b.value.isDebugStrRef = false := fun b hb => hname b (by simp [hb])
      rcases hb : a.name with _ | _ | _ | _ | _ | n
      · -- DW_AT_type: the value cannot be a unit reference
        have hnr := htype a (by simp) hb
        rcases hv : a.value with o | v | sst | o | _
        · rw [hv] at hnr
          exact absurd hnr (by simp [AttrValue.isUnitRef])
        all_goals
          simp only [parse_member_attrs, hb, hv]
          exact ih m htype2 hname2
      · -- DW_AT_name: the value cannot be a .debug_str reference
        have hnr := hname a (by simp) hb
        rcases hv : a.value with o | v | sst | o | _
        · simp only [parse_member_attrs, hb, hv, name_attr_to_string]
          exact ih _ htype2 hname2
        · simp only [parse_member_attrs, hb, hv, name_attr_to_string]
          exact ih _ htype2 hname2
        · simp only [parse_member_attrs, hb, hv, name_attr_to_string]
          exact ih _ htype2 hname2
        · rw [hv] at hnr
          exact absurd hnr (by simp [AttrValue.isDebugStrRef])
        · simp only [parse_member_attrs, hb, hv, name_attr_to_string]
          exact ih _ htype2 hname2
      · simp only [parse_member_attrs, hb]
        exact ih _ htype2 hname2
      · simp only [parse_member_attrs, hb]
        exact ih m htype2 hname2
      · simp only [parse_member_attrs, hb]
        exact ih m htype2 hname2
      · simp only [parse_member_attrs, hb]
        exact ih m htype2 hname2

/-- **C1** (amended).  A member entry whose type attribute is present but
malformed (not a unit reference) — or absent — is yielded by the
enumerator with a `None` type reference, and the iteration does not end
there; but (per the counterexample) a member whose type reference fails to
*resolve* ends the enumeration of the whole struct instead of being
yielded with a `None` type reference. -/
theorem c1_member_type_handling (p : Parser) (s : Struct) (u : CUnit)
    (tl : List CUnit) (e0 : Entry) (pre rest : List Entry) (e : Entry)
    (hu : p.sections.units.drop s.meta.header_idx = u :: tl)
    (he : entriesAtOffset u s.meta.offset = .ok (e0 :: (pre ++ e :: rest)))
    (hmem : e.tag = .member)
    (htype : ∀ a ∈ e.attrs, a.name = .DW_AT_type → a.value.isUnitRef = false)
    (hname : ∀ a ∈ e.attrs, a.name = .DW_AT_name →
      a.value.isDebugStrRef = false) :
    ∃ m, memberNext p s pre.length = some m ∧ m.mb_type = none := by
  obtain ⟨m2, hm2, hmb⟩ := parse_member_attrs_no_ref p s.meta.header_idx
    e.attrs StructMember.new htype hname
  have hg := get_member_split p s u tl e0 pre rest e hu he
  rw [if_pos hmem] at hg
  refine ⟨m2, ?_, hmb⟩
  simp only [memberNext, hg, parse_member, hm2]

/-- **C1** witness: the second member of the fixture struct carries a
malformed (non-reference) type attribute; it is yielded with a `None`
type reference instead of aborting. -/
theorem c1_witness : ∃ m, memberNext P0 S0 1 = some m ∧ m.mb_type = none :=
  c1_member_type_handling P0 S0 U0 []
    ⟨0, .structure_type, [⟨.DW_AT_name, .str "s"⟩,
      ⟨.DW_AT_byte_size, .udata 8⟩]⟩
    [⟨1, .member, [⟨.DW_AT_name, .str "a"⟩, ⟨.DW_AT_type, .unitRef 3⟩,
      ⟨.DW_AT_byte_size, .udata 4⟩]⟩]
    [⟨3, .base_type, [⟨.DW_AT_name, .str "int"⟩]⟩, ⟨4, .other 7, []⟩]
    ⟨2, .member, [⟨.DW_AT_name, .str "b"⟩, ⟨.DW_AT_type, .udata 99⟩]⟩
    rfl rfl rfl (by decide) (by decide)

/-- Fixture refuting C1 as stated: the struct at offset 0 has two member
children, and the first member's type attribute references the entry at
offset 4, whose tag the resolver does not handle, so resolving it fails. -/
def U1 : CUnit := ⟨[
  ⟨0, .structure_type, []⟩,
  ⟨1, .member, [⟨.DW_AT_type, .unitRef 4⟩]⟩,
  ⟨2, .member, []⟩,
  ⟨3, .base_type, []⟩,
  ⟨4, .other 0, []⟩]⟩

def P1 : Parser := ⟨⟨[U1], []⟩, []⟩

def S1 : Struct := ⟨"t", 0, ⟨0, 0⟩, 0⟩

/-- **C1** counterexample.  The first member's type-reference resolution
fails (`get_type_meta` errors on the unhandled tag at offset 4);
`get_member` propagates that error, and `next` converts it into `None` —
ending the whole enumeration: the member is not yielded with an absent
type reference, the second member is never yielded, and the struct's
member sequence is empty. -/
theorem c1_counterexample :
    (U1.entries.map Entry.tag) =
      [.structure_type, .member, .member, .base_type, .other 0] ∧
    get_type_meta P1 0 4 = .error .TypeMismatch ∧
    get_member P1 S1 0 = .error .TypeMismatch ∧
    memberNext P1 S1 0 = none ∧
    enumerate_members P1 S1 = [] :=
  ⟨rfl, rfl, rfl, rfl, rfl⟩

/-- The cursor suffix returned by `entries_at_offset` is no longer than
the unit's entry list. -/
theorem entriesAtOffset_length_le (u : CUnit) (off : Nat) (l : List Entry)
    (h : entriesAtOffset u off = .ok l) :
    l.length ≤ u.entries.length := by
  unfold entriesAtOffset at h
  split at h
  · exact Except.noConfusion h
  · injection h with h2
    subst h2
    exact (List.dropWhile_sublist _).length_le

/-- Any unit reachable by `drop` contributes at most `totalEntries`. -/
theorem unit_length_le_total (d : Dwarf) (hidx : Nat) (u : CUnit)
    (tl : List CUnit) (hu : d.units.drop hidx = u :: tl) :
    u.entries.length ≤ totalEntries d := by
  have hmem : u ∈ d.units :=
    List.drop_subset hidx d.units (by rw [hu]; exact List.mem_cons_self u tl)
  exact List.single_le_sum (fun x _ => Nat.zero_le x) _
    (List.mem_map_of_mem (fun u => u.entries.length) hmem)

/-- Driving the member iterator over a contiguous block of member-tagged,
successfully parsing children followed by a non-member entry yields
exactly that block. -/
theorem memberSeq_length (p : Parser) (s : Struct) (u : CUnit)
    (tl : List CUnit) (e0 stop : Entry) (after : List Entry)
    (hu : p.sections.units.drop s.meta.header_idx = u :: tl)
    (hstop : stop.tag ≠ .member) :
    ∀ (preB preA : List Entry) (fuel : Nat),
    entriesAtOffset u s.meta.offset =
      .ok (e0 :: (preA ++ (preB ++ (stop :: after)))) →
    (∀ e ∈ preB, e.tag = .member) →
    (∀ e ∈ preB, ∃ m, parse_member p s.meta.header_idx e = .ok (some m)) →
    preB.length < fuel →
    (memberSeq p s fuel preA.length).length = preB.length := by
  intro preB
  induction preB with
  | nil =>
      intro preA fuel he _ _ hfuel
      cases fuel with
      | zero => omega
      | succ f =>
          have hg := get_member_split p s u tl e0 preA after stop hu he
          rw [if_neg hstop] at hg
          simp [memberSeq, memberNext, hg]
  | cons e preB2 ih =>
      intro preA fuel he hmem hparse hfuel
      cases fuel with
      | zero => omega
      | succ f =>
          obtain ⟨m, hm⟩ := hparse e (by simp)
          have hg := get_member_split p s u tl e0 preA
            (preB2 ++ (stop :: after)) e hu he
          rw [if_pos (hmem e (by simp))] at hg
          have hnext : memberNext p s preA.length = some m := by
            simp only [memberNext, hg, hm]
          have ih2 := ih (preA ++ [e]) f
            (by rw [List.append_assoc]; exact he)
            (fun b hb => hmem b (by simp [hb]))
            (fun b hb => hparse b (by simp [hb]))
            (by simp at hfuel; omega)
          simp only [List.length_append, List.length_singleton] at ih2
          simp [memberSeq, hnext, ih2]

/-- **C6** (amended).  For every struct whose contiguous prefix of
member-tagged children all parse without a type-resolution error, member
enumeration yields exactly that prefix: it ends permanently at the first
child not tagged as a member, so a struct whose children are
`[member, member, nested-type-decl, member]` yields exactly 2 members,
not 3.  (Per the counterexample, a resolution failure inside the prefix
also ends the enumeration early, so the parse-success hypothesis is
necessary.) -/
theorem c6_contiguous_members (p : Parser) (s : Struct) (u : CUnit)
    (tl : List CUnit) (e0 stop : Entry) (pre after : List Entry)
    (hu : p.sections.units.drop s.meta.header_idx = u :: tl)
    (he : entriesAtOffset u s.meta.offset =
      .ok (e0 :: (pre ++ (stop :: after))))
    (hmem : ∀ e ∈ pre, e.tag = .member)
    (hstop : stop.tag ≠ .member)
    (hparse : ∀ e ∈ pre, ∃ m, parse_member p s.meta.header_idx e =
      .ok (some m)) :
    (enumerate_members p s).length = pre.length := by
  have h1 := entriesAtOffset_length_le u s.meta.offset _ he
  have h2 := unit_length_le_total p.sections s.meta.header_idx u tl hu
  simp only [List.length_cons, List.length_append] at h1
  exact memberSeq_length p s u tl e0 stop after hu hstop pre [] _ he hmem
    hparse (by omega)

/-- Fixture for the member-prefix witness: children
`[member, member, base-type, member]`, both prefix members well formed. -/
def U6w : CUnit := ⟨[
  ⟨0, .structure_type, []⟩,
  ⟨1, .member, [⟨.DW_AT_name, .str "x"⟩]⟩,
  ⟨2, .member, [⟨.DW_AT_byte_size, .udata 4⟩]⟩,
  ⟨3, .base_type, []⟩,
  ⟨4, .member, []⟩]⟩

def P6w : Parser := ⟨⟨[U6w], []⟩, []⟩

def S6w : Struct := ⟨"w", 0, ⟨0, 0⟩, 0⟩

/-- **C6** witness: the fixture struct with children
`[member, member, base-type, member]` yields exactly 2 members. -/
theorem c6_witness :
    (U6w.entries.map Entry.tag) =
      [.structure_type, .member, .member, .base_type, .member] ∧
    (enumerate_members P6w S6w).length = 2 :=
  ⟨rfl, c6_contiguous_members P6w S6w U6w [] ⟨0, .structure_type, []⟩
    ⟨3, .base_type, []⟩
    [⟨1, .member, [⟨.DW_AT_name, .str "x"⟩]⟩,
     ⟨2, .member, [⟨.DW_AT_byte_size, .udata 4⟩]⟩]
    [⟨4, .member, []⟩] rfl rfl (by decide) (by decide)
    (by intro e he
        simp only [List.mem_cons] at he
        rcases he with h | h | h
        · subst h; exact ⟨⟨some "x", 0, none, ⟨0, 0⟩⟩, rfl⟩
        · subst h; exact ⟨⟨none, 4, none, ⟨0, 0⟩⟩, rfl⟩
        · cases h)⟩

/-- Fixture refuting C6 as stated: children
`[member, member, base-type, member]` where the *first* member's type
reference fails to resolve. -/
def U6 : CUnit := ⟨[
  ⟨0, .structure_type, []⟩,
  ⟨1, .member, [⟨.DW_AT_type, .unitRef 5⟩]⟩,
  ⟨2, .member, []⟩,
  ⟨3, .base_type, []⟩,
  ⟨4, .member, []⟩,
  ⟨5, .other 9, []⟩]⟩

def P6 : Parser := ⟨⟨[U6], []⟩, []⟩

def S6 : Struct := ⟨"t6", 0, ⟨0, 0⟩, 0⟩

/-- **C6** counterexample.  This struct's contiguous member prefix has
two entries, so the claim as stated demands exactly 2 yielded members;
but the first member's type resolution fails, and the enumeration yields
nothing at all — the yielded sequence is not always the member-tagged
prefix. -/
theorem c6_counterexample :
    (U6.entries.map Entry.tag) =
      [.structure_type, .member, .member, .base_type, .member, .other 9] ∧
    get_type_meta P6 0 5 = .error .TypeMismatch ∧
    enumerate_members P6 S6 = [] :=
  ⟨rfl, rfl, rfl⟩

/-- The running byte-size accumulator of the structure arm of
`get_type_meta`: the last byte-size attribute of the scanned list wins. -/
def byteSizeFold (l : List Attr) (s : Nat) : Nat :=
  l.foldl (fun acc a =>
    if a.name = .DW_AT_byte_size then a.value.udataValue.getD 0 else acc) s

/-- The structure arm's attribute scan, at the first name attribute that
resolves and hits the registry, returns the registry entry's *name*
together with the *locally accumulated* size (the byte-size attributes
seen so far), not the registry entry's size. -/
theorem structScan_hit (ds : DebugStr) (dict : StructDict) :
    ∀ (pre : List Attr) (a : Attr) (rest : List Attr) (nm : String)
      (entry : Struct) (size : Nat),
    a.name = .DW_AT_name →
    name_attr_to_string ds a = .ok (some nm) →
    dictLookup dict nm = some entry →
    (∀ b ∈ pre, b.name = .DW_AT_name →
      ∃ r, name_attr_to_string ds b = .ok r ∧
        (∀ s2, r = some s2 → dictLookup dict s2 = none)) →
    structScan ds dict (pre ++ a :: rest) size =
      .ok (entry.name, byteSizeFold pre size, 0) := by
  intro pre
  induction pre with
  | nil =>
      intro a rest nm entry size ha hna hdict _
      simp only [List.nil_append, structScan, ha, hna, hdict]
      rfl
  | cons b pre2 ih =>
      intro a rest nm entry size ha hna hdict hmiss
      have hmiss2 : ∀ c ∈ pre2, c.name = .DW_AT_name →
          ∃ r, name_attr_to_string ds c = .ok r ∧
            (∀ s2, r = some s2 → dictLookup dict s2 = none) :=
        fun c hc => hmiss c (by simp [hc])
      rcases hb : b.name with _ | _ | _ | _ | _ | n
      · simp only [List.cons_append, structScan, hb, List.append_eq]
        rw [ih a rest nm entry size ha hna hdict hmiss2]
        simp [byteSizeFold, hb]
      · obtain ⟨r, hr, hrm⟩ := hmiss b (by simp) hb
        cases r with
        | none =>
            simp only [List.cons_append, structScan, hb, hr, List.append_eq]
            rw [ih a rest nm entry size ha hna hdict hmiss2]
            simp [byteSizeFold, hb]
        | some s2 =>
            simp only [List.cons_append, structScan, hb, hr,
              hrm s2 rfl, List.append_eq]
            rw [ih a rest nm entry size ha hna hdict hmiss2]
            simp [byteSizeFold, hb]
      · simp only [List.cons_append, structScan, hb, List.append_eq]
        rw [ih a rest nm entry (b.value.udataValue.getD 0) ha hna hdict
          hmiss2]
        simp [byteSizeFold, hb]
      · simp only [List.cons_append, structScan, hb, List.append_eq]
        rw [ih a rest nm entry size ha hna hdict hmiss2]
        simp [byteSizeFold, hb]
      · simp only [List.cons_append, structScan, hb, List.append_eq]
        rw [ih a rest nm entry size ha hna hdict hmiss2]
        simp [byteSizeFold, hb]
      · simp only [List.cons_append, structScan, hb, List.append_eq]
        rw [ih a rest nm entry size ha hna hdict hmiss2]
        simp [byteSizeFold, hb]

/-- **C2** (amended).  For every structure-tagged entry whose first
registry-hitting name attribute names a registry entry, the resolver
returns a `Struct` variant whose *name* is taken from the registry entry
but whose *size* is the local entry's byte-size accumulation scanned
before that name attribute (0 when none was seen) — the registry entry's
size is not consulted. -/
theorem c2_struct_size_local (p : Parser) (hidx off : Nat) (u : CUnit)
    (tl : List CUnit) (e : Entry) (es : List Entry) (pre rest : List Attr)
    (a : Attr) (nm : String) (entry : Struct)
    (hu : p.sections.units.drop hidx = u :: tl)
    (he : entriesAtOffset u off = .ok (e :: es))
    (htag : e.tag = .structure_type)
    (hattrs : e.attrs = pre ++ a :: rest)
    (ha : a.name = .DW_AT_name)
    (hna : name_attr_to_string p.sections.debug_str a = .ok (some nm))
    (hdict : dictLookup p.struct_dict nm = some entry)
    (hmiss : ∀ b ∈ pre, b.name = .DW_AT_name →
      ∃ r, name_attr_to_string p.sections.debug_str b = .ok r ∧
        (∀ s2, r = some s2 → dictLookup p.struct_dict s2 = none)) :
    get_type_meta p hidx off =
      .ok (.Struct ⟨entry.name, byteSizeFold pre 0, ⟨off, hidx⟩, 0⟩) := by
  unfold get_type_meta
  simp only [hu, he, htag]
  rw [hattrs, structScan_hit p.sections.debug_str p.struct_dict pre a rest
    nm entry 0 ha hna hdict hmiss]

/-- Fixture refuting C2 as stated: the registry records `foo` with size
16; the local structure entry carries byte-size 24 before its name
attribute. -/
def U2 : CUnit := ⟨[⟨0, .structure_type,
  [⟨.DW_AT_byte_size, .udata 24⟩, ⟨.DW_AT_name, .str "foo"⟩]⟩]⟩

def P2 : Parser := ⟨⟨[U2], []⟩, [("foo", ⟨"foo", 16, ⟨0, 0⟩, 0⟩)]⟩

/-- **C2** counterexample.  The name `foo` is found in the registry with
size 16, but the resolver returns a `Struct` of size 24 — the size read
from the local entry's own byte-size attribute, not the registry
entry's. -/
theorem c2_counterexample :
    dictLookup P2.struct_dict "foo" = some ⟨"foo", 16, ⟨0, 0⟩, 0⟩ ∧
    get_type_meta P2 0 0 = .ok (.Struct ⟨"foo", 24, ⟨0, 0⟩, 0⟩) ∧
    get_type_meta P2 0 0 ≠ .ok (.Struct ⟨"foo", 16, ⟨0, 0⟩, 0⟩) :=
  ⟨rfl, rfl, fun h => by
    have h2 : Except.ok (Ty.Struct ⟨"foo", 24, ⟨0, 0⟩, 0⟩) =
        Except.ok (Ty.Struct ⟨"foo", 16, ⟨0, 0⟩, 0⟩) := h
    simp at h2⟩

/-- **C2** witness: the amended theorem applied to the fixture — the
returned size 24 is the local byte-size accumulation, the name comes from
the registry. -/
theorem c2_witness :
    get_type_meta P2 0 0 = .ok (.Struct ⟨"foo", 24, ⟨0, 0⟩, 0⟩) :=
  c2_struct_size_local P2 0 0 U2 []
    ⟨0, .structure_type, [⟨.DW_AT_byte_size, .udata 24⟩,
      ⟨.DW_AT_name, .str "foo"⟩]⟩ []
    [⟨.DW_AT_byte_size, .udata 24⟩] [] ⟨.DW_AT_name, .str "foo"⟩ "foo"
    ⟨"foo", 16, ⟨0, 0⟩, 0⟩ rfl rfl rfl rfl rfl rfl rfl
    (by intro b hb hn
        simp only [List.mem_singleton] at hb
        subst hb
        exact AttrName.noConfusion hn)

/-- Iterated wrap-around increment (the effect of `k` refcnt bumps). -/
def iterBump (r : Nat) : Nat → Nat
  | 0 => r
  | k + 1 => u64Mod (iterBump r k + 1)

theorem iterBump_eq_mod (r k : Nat) (hr : r < 2 ^ 64) :
    iterBump r k = (r + k) % 2 ^ 64 := by
  induction k with
  | zero => simpa [iterBump] using (Nat.mod_eq_of_lt hr).symm
  | succ k ih =>
      simp only [iterBump, ih, u64Mod]
      omega

theorem iterBump_bump (r k : Nat) :
    iterBump (u64Mod (r + 1)) k = iterBump r (k + 1) := by
  induction k with
  | zero => rfl
  | succ k ih => simp only [iterBump, ih]

theorem dictLookup_bump_self :
    ∀ (d : StructDict) (n : String) (s : Struct),
    dictLookup d n = some s →
    dictLookup (bumpRefcnt d n) n =
      some { s with refcnt := u64Mod (s.refcnt + 1) } := by
  intro d
  induction d with
  | nil => intro n s h; exact Option.noConfusion h
  | cons kv rest ih =>
      intro n s h
      obtain ⟨k, v⟩ := kv
      by_cases hk : k = n
      · subst hk
        rw [dictLookup, if_pos rfl] at h
        injection h with h2
        subst h2
        simp [bumpRefcnt, dictLookup]
      · rw [dictLookup, if_neg hk] at h
        simp only [bumpRefcnt, if_neg hk, dictLookup]
        exact ih n s h

theorem dictLookup_bump_other :
    ∀ (d : StructDict) (n k : String), k ≠ n →
    dictLookup (bumpRefcnt d n) k = dictLookup d k := by
  intro d
  induction d with
  | nil => intro n k _; rfl
  | cons kv rest ih =>
      intro n k hk
      obtain ⟨k2, v⟩ := kv
      by_cases h2 : k2 = n
      · subst h2
        have hne : ¬k2 = k := fun h => hk h.symm
        simp only [bumpRefcnt, if_pos rfl, dictLookup, if_neg hne]
      · simp only [bumpRefcnt, if_neg h2, dictLookup]
        by_cases h3 : k2 = k
        · rw [if_pos h3, if_pos h3]
        · rw [if_neg h3, if_neg h3]
          exact ih n k hk

theorem dictLookup_append_one_self :
    ∀ (d : StructDict) (n : String) (s : Struct),
    dictLookup d n = none →
    dictLookup (d ++ [(n, s)]) n = some s := by
  intro d
  induction d with
  | nil => intro n s _; simp [dictLookup]
  | cons kv rest ih =>
      intro n s h
      obtain ⟨k, v⟩ := kv
      by_cases hk : k = n
      · rw [dictLookup, if_pos hk] at h
        exact Option.noConfusion h
      · rw [dictLookup, if_neg hk] at h
        simp only [List.cons_append, dictLookup, if_neg hk]
        exact ih n s h

theorem dictLookup_append_one_other :
    ∀ (d : StructDict) (n k : String) (s : Struct), k ≠ n →
    dictLookup (d ++ [(n, s)]) k = dictLookup d k := by
  intro d
  induction d with
  | nil =>
      intro n k s hk
      simp [dictLookup, if_neg (fun h => hk (Eq.symm h))]
  | cons kv rest ih =>
      intro n k s hk
      obtain ⟨k2, v⟩ := kv
      simp only [List.cons_append, dictLookup]
      by_cases h3 : k2 = k
      · rw [if_pos h3, if_pos h3]
      · rw [if_neg h3, if_neg h3]
        exact ih n k s hk

theorem dictRegister_lookup_self (d : StructDict) (n : String) (sz : Nat)
    (m : DwTypeMeta) :
    dictLookup (dictRegister d n sz m) n =
      match dictLookup d n with
      | some s => some { s with refcnt := u64Mod (s.refcnt + 1) }
      | none => some ⟨n, sz, m, 0⟩ := by
  unfold dictRegister
  cases hd : dictLookup d n with
  | some s => exact dictLookup_bump_self d n s hd
  | none => exact dictLookup_append_one_self d n ⟨n, sz, m, 0⟩ hd

theorem dictRegister_lookup_other (d : StructDict) (n : String) (sz : Nat)
    (m : DwTypeMeta) (k : String) (hk : k ≠ n) :
    dictLookup (dictRegister d n sz m) k = dictLookup d k := by
  unfold dictRegister
  cases dictLookup d n
  · exact dictLookup_append_one_other d n k ⟨n, sz, m, 0⟩ hk
  · exact dictLookup_bump_other d n k hk

/-- The fold of the registration list computes, per name, the first
registration's data with a reference count that counts the later ones. -/
theorem regFold_lookup :
    ∀ (evs : List (String × Nat × DwTypeMeta)) (d : StructDict)
      (n : String),
    dictLookup (regFold d evs) n =
      match dictLookup d n with
      | some s =>
          some { s with refcnt := iterBump s.refcnt (filterName evs n).length }
      | none =>
          match filterName evs n with
          | [] => none
          | (sz, m) :: later => some ⟨n, sz, m, iterBump 0 later.length⟩ := by
  intro evs
  induction evs with
  | nil =>
      intro d n
      simp only [regFold, List.foldl_nil, filterName, List.filter_nil,
        List.map_nil, List.length_nil]
      cases dictLookup d n <;> simp [iterBump]
  | cons ev evs ih =>
      intro d n
      obtain ⟨n2, sz2, m2⟩ := ev
      have hstep : regFold d ((n2, sz2, m2) :: evs) =
          regFold (dictRegister d n2 sz2 m2) evs := rfl
      by_cases hn : n2 = n
      · subst hn
        have hf : filterName ((n2, sz2, m2) :: evs) n2 =
            (sz2, m2) :: filterName evs n2 := by simp [filterName]
        rw [hstep, ih, dictRegister_lookup_self, hf]
        cases hd : dictLookup d n2 with
        | some s =>
            obtain ⟨sn, ss, sm, sr⟩ := s
            simp only [List.length_cons, iterBump_bump]
        | none =>
            simp only [List.length_cons]
      · have hf : filterName ((n2, sz2, m2) :: evs) n =
            filterName evs n := by simp [filterName, hn]
        rw [hstep, ih, dictRegister_lookup_other d n2 sz2 m2 n
          (fun h => hn (Eq.symm h)), hf]

theorem dictKeys_bump : ∀ (d : StructDict) (n : String),
    dictKeys (bumpRefcnt d n) = dictKeys d := by
  intro d
  induction d with
  | nil => intro n; rfl
  | cons kv rest ih =>
      intro n
      obtain ⟨k, v⟩ := kv
      by_cases hk : k = n
      · simp [bumpRefcnt, if_pos hk, dictKeys]
      · simp only [bumpRefcnt, if_neg hk, dictKeys, List.map_cons]
        have h2 := ih n
        simp only [dictKeys] at h2
        rw [h2]

theorem not_mem_keys_of_lookup_none :
    ∀ (d : StructDict) (n : String), dictLookup d n = none →
    n ∉ dictKeys d := by
  intro d
  induction d with
  | nil => intro n _ h; cases h
  | cons kv rest ih =>
      intro n h hmem
      obtain ⟨k, v⟩ := kv
      by_cases hk : k = n
      · rw [dictLookup, if_pos hk] at h
        exact Option.noConfusion h
      · rw [dictLookup, if_neg hk] at h
        simp only [dictKeys, List.map_cons, List.mem_cons] at hmem
        rcases hmem with h2 | h2
        · exact hk h2.symm
        · exact ih n h h2

theorem nodup_dictRegister (d : StructDict) (n : String) (sz : Nat)
    (m : DwTypeMeta) (hd : (dictKeys d).Nodup) :
    (dictKeys (dictRegister d n sz m)).Nodup := by
  unfold dictRegister
  cases hl : dictLookup d n with
  | some s => rw [dictKeys_bump]; exact hd
  | none =>
      have hnm := not_mem_keys_of_lookup_none d n hl
      have : dictKeys (d ++ [(n, ⟨n, sz, m, 0⟩)]) = dictKeys d ++ [n] := by
        simp [dictKeys]
      rw [this]
      exact List.Nodup.append hd (List.nodup_singleton n)
        (fun a ha hb => by
          simp only [List.mem_singleton] at hb
          exact hnm (hb ▸ ha))

theorem nodup_regFold : ∀ (evs : List (String × Nat × DwTypeMeta))
    (d : StructDict), (dictKeys d).Nodup →
    (dictKeys (regFold d evs)).Nodup := by
  intro evs
  induction evs with
  | nil => intro d hd; exact hd
  | cons ev evs ih =>
      intro d hd
      exact ih (dictRegister d ev.1 ev.2.1 ev.2.2)
        (nodup_dictRegister d ev.1 ev.2.1 ev.2.2 hd)

/-- A successful entry loop of `load_structs` computes the fold of the
entries' registrations. -/
theorem loadStructEntries_regFold :
    ∀ (entries : List Entry) (ds : DebugStr) (hidx : Nat)
      (d d2 : StructDict),
    loadStructEntries ds hidx d entries = .ok d2 →
    d2 = regFold d (entries.filterMap (entryRegistration ds hidx)) := by
  intro entries
  induction entries with
  | nil =>
      intro ds hidx d d2 h
      injection h with h2
      subst h2
      rfl
  | cons e rest ih =>
      intro ds hidx d d2 h
      rw [loadStructEntries] at h
      by_cases htag : e.tag = .structure_type
      · rw [if_pos htag] at h
        unfold load_struct at h
        cases hscan : scanStructAttrs ds e.attrs none none with
        | error er => rw [hscan] at h; exact Except.noConfusion h
        | ok o =>
            cases o with
            | none =>
                rw [hscan] at h
                have : List.filterMap (entryRegistration ds hidx) (e :: rest) =
                    List.filterMap (entryRegistration ds hidx) rest := by
                  simp [List.filterMap_cons, entryRegistration, htag, hscan]
                rw [this]
                exact ih ds hidx d d2 h
            | some r =>
                obtain ⟨n, sz⟩ := r
                rw [hscan] at h
                have : List.filterMap (entryRegistration ds hidx) (e :: rest) =
                    (n, sz, (⟨e.offset, hidx⟩ : DwTypeMeta)) ::
                      List.filterMap (entryRegistration ds hidx) rest := by
                  simp [List.filterMap_cons, entryRegistration, htag, hscan]
                rw [this]
                exact ih ds hidx _ d2 h
      · rw [if_neg htag] at h
        have : List.filterMap (entryRegistration ds hidx) (e :: rest) =
            List.filterMap (entryRegistration ds hidx) rest := by
          simp [List.filterMap_cons, entryRegistration, htag]
        rw [this]
        exact ih ds hidx d d2 h

/-- A successful unit loop of `load_structs` computes the fold of all
units' registrations in scan order. -/
theorem loadStructsUnits_regFold :
    ∀ (units : List CUnit) (ds : DebugStr) (hidx : Nat) (d d2 : StructDict),
    loadStructsUnits ds hidx d units = .ok d2 →
    d2 = regFold d (structRegistrationsFrom ds hidx units) := by
  intro units
  induction units with
  | nil =>
      intro ds hidx d d2 h
      injection h with h2
      subst h2
      rfl
  | cons u rest ih =>
      intro ds hidx d d2 h
      rw [loadStructsUnits] at h
      cases hent : loadStructEntries ds hidx d u.entries with
      | error er => rw [hent] at h; exact Except.noConfusion h
      | ok d3 =>
          rw [hent] at h
          have h3 := loadStructEntries_regFold u.entries ds hidx d d3 hent
          have h4 := ih ds (hidx + 1) d3 d2 h
          rw [h4, h3]
          simp [structRegistrationsFrom, regFold, List.foldl_append]

/-- **C7**.  After a successful `load_structs` from an empty registry, the
registry keys are unique (at most one entry per name) and, for every name,
the stored entry is exactly the FIRST full-definition registration with
that name in scan order — its size, its location — while each later full
definition with the same name has only incremented `refcnt` (so a struct
registered twice has `refcnt` 1), never changing the stored location,
size, or name. -/
theorem c7_registry (p q : Parser) (hinit : p.struct_dict = [])
    (hload : load_structs p = .ok q) :
    (dictKeys q.struct_dict).Nodup ∧
    ∀ n, dictLookup q.struct_dict n =
      match filterName (structRegistrationsFrom p.sections.debug_str 0
          p.sections.units) n with
      | [] => none
      | (sz, m) :: later => some ⟨n, sz, m, later.length % 2 ^ 64⟩ := by
  unfold load_structs at hload
  cases hrun : loadStructsUnits p.sections.debug_str 0 p.struct_dict
      p.sections.units with
  | error er => rw [hrun] at hload; exact Except.noConfusion hload
  | ok d =>
      rw [hrun] at hload
      injection hload with h2
      have hq : q.struct_dict = d := by rw [← h2]
      have hd := loadStructsUnits_regFold p.sections.units
        p.sections.debug_str 0 p.struct_dict d hrun
      rw [hinit] at hd
      constructor
      · rw [hq, hd]
        exact nodup_regFold _ [] List.nodup_nil
      · intro n
        rw [hq, hd, regFold_lookup]
        cases filterName (structRegistrationsFrom p.sections.debug_str 0
            p.sections.units) n with
        | nil => rfl
        | cons hd2 later =>
            obtain ⟨sz, m⟩ := hd2
            simp only [dictLookup]
            rw [iterBump_eq_mod 0 later.length (by norm_num)]
            simp

/-- Fixture: the same struct name fully defined in two compilation
units, with different local sizes. -/
def U7a : CUnit := ⟨[⟨0, .structure_type,
  [⟨.DW_AT_name, .str "foo"⟩, ⟨.DW_AT_byte_size, .udata 8⟩]⟩]⟩

def U7b : CUnit := ⟨[⟨0, .structure_type,
  [⟨.DW_AT_name, .str "foo"⟩, ⟨.DW_AT_byte_size, .udata 24⟩]⟩]⟩

def P7 : Parser := ⟨⟨[U7a, U7b], []⟩, []⟩

def Q7 : Parser := ⟨P7.sections, [("foo", ⟨"foo", 8, ⟨0, 0⟩, 1⟩)]⟩

/-- **C7** witness: a struct named `foo` defined in two units yields one
registry entry carrying the first occurrence's size and location with
`redefinition_count` 1, and unique keys. -/
theorem c7_witness :
    load_structs P7 = .ok Q7 ∧
    dictLookup Q7.struct_dict "foo" = some ⟨"foo", 8, ⟨0, 0⟩, 1⟩ ∧
    (dictKeys Q7.struct_dict).Nodup := by
  refine ⟨rfl, ?_, ?_⟩
  · exact (c7_registry P7 Q7 rfl rfl).2 "foo"
  · exact (c7_registry P7 Q7 rfl rfl).1

end Rshole
